import Mathlib

/-!
Verification of the `flexidate` repository's fuzzy-date library.

The main module embedded here is `src/fuzidate/fuzidate.py` (the package
form of the library, with component-based storage); the earlier
single-module form `src/fuzidate.py` (number-based storage, which is the
only form providing `Fuzidate.using`) is embedded in namespace `Legacy`.

Python integers are modelled as `Int`.  For the positive literal divisors
appearing in the code (4, 100, 400, 10, 12, 86400), Python's `//` and `%`
agree with Lean's `Int` `/` (`Int.ediv`) and `%` (`Int.emod`), which is
what we use.  `int(x / 12)` on a non-negative exact quotient is modelled
as `Int.tdiv` (truncation towards zero, which is what `int` does; the
float rounding of Python's true division is immaterial at the magnitudes
any theorem below touches).

Exceptions are modelled by `Except PyErr`: Python's class hierarchy is
flattened to the constructors actually distinguishable by the library
(`InvalidFuzidateError`, `calendar.IllegalMonthError`, other `ValueError`s,
`OverflowError`, `NotImplementedError`).  `InvalidFuzidateError` and
`IllegalMonthError` are both subclasses of `ValueError` in the source.
-/

deriving instance DecidableEq for Except

namespace Fzd

/-- Exceptions distinguishable in the embedded code. -/
inductive PyErr where
  | invalidFuzidate (msg : String)
  | illegalMonth
  | valueError (msg : String)
  | overflowError
  | notImplementedError
deriving DecidableEq

/-- Whether an exception is (a subclass of) Python's `ValueError`.
`InvalidFuzidateError(ValueError)` and `calendar.IllegalMonthError(ValueError)`
both are. -/
def PyErr.isValueError : PyErr → Bool
  | .invalidFuzidate _ => true
  | .illegalMonth => true
  | .valueError _ => true
  | .overflowError => false
  | .notImplementedError => false

/-- `calendar.isleap(year)`: `year % 4 == 0 and (year % 100 != 0 or year % 400 == 0)`. -/
def isleap (y : Int) : Bool :=
  y % 4 = 0 ∧ (y % 100 ≠ 0 ∨ y % 400 = 0)

/-- `calendar.mdays`: `[0, 31, 28, 31, 30, 31, 30, 31, 31, 30, 31, 30, 31]`. -/
def mdays : List Int := [0, 31, 28, 31, 30, 31, 30, 31, 31, 30, 31, 30, 31]

/-- `calendar.mdays[month]` (only ever indexed with `month` in 1..12,
after `monthrange`'s range check). -/
def mdaysTable (m : Int) : Int := mdays.getD m.toNat 0

/-- Number of days in a month, counting the leap day (total function;
`monthrangeDays` below adds the range check of `calendar.monthrange`). -/
def daysInMonth (y m : Int) : Int :=
  mdaysTable m + (if m = 2 ∧ isleap y then 1 else 0)

/-- `calendar.monthrange(year, month)[1]`: raises `IllegalMonthError` unless
`1 <= month <= 12`, else the month's day count (leap aware). -/
def monthrangeDays (y m : Int) : Except PyErr Int :=
  if 1 ≤ m ∧ m ≤ 12 then .ok (daysInMonth y m) else .error .illegalMonth

/-- A `datetime.date` value (already-validated components). -/
structure Date where
  year : Int
  month : Int
  day : Int
deriving DecidableEq

/-- `datetime.date.min` = 0001-01-01. -/
def dateMin : Date := ⟨1, 1, 1⟩

/-- `datetime.date.max` = 9999-12-31. -/
def dateMax : Date := ⟨9999, 12, 31⟩

/-- The `datetime.date(year, month, day)` constructor: checks
`MINYEAR <= year <= MAXYEAR`, `1 <= month <= 12`, `1 <= day <= days in month`,
raising `ValueError` otherwise (in that order). -/
def dateNew (y m d : Int) : Except PyErr Date :=
  if ¬ (1 ≤ y ∧ y ≤ 9999) then .error (.valueError "year out of range")
  else if ¬ (1 ≤ m ∧ m ≤ 12) then .error (.valueError "month must be in 1..12")
  else if ¬ (1 ≤ d ∧ d ≤ daysInMonth y m) then .error (.valueError "day is out of range for month")
  else .ok ⟨y, m, d⟩

/-- Next calendar day; `none` past `datetime.date.max`. -/
def succDay (d : Date) : Option Date :=
  if d.day < daysInMonth d.year d.month then some ⟨d.year, d.month, d.day + 1⟩
  else if d.month < 12 then some ⟨d.year, d.month + 1, 1⟩
  else if d.year < 9999 then some ⟨d.year + 1, 1, 1⟩
  else none

/-- Previous calendar day; `none` before `datetime.date.min`. -/
def predDay (d : Date) : Option Date :=
  if 1 < d.day then some ⟨d.year, d.month, d.day - 1⟩
  else if 1 < d.month then some ⟨d.year, d.month - 1, daysInMonth d.year (d.month - 1)⟩
  else if 1 < d.year then some ⟨d.year - 1, 12, 31⟩
  else none

/-- Advance `n` calendar days; `none` on passing `datetime.date.max`. -/
def addDays : Date → Nat → Option Date
  | d, 0 => some d
  | d, n + 1 => (succDay d).bind (fun d2 => addDays d2 n)

/-- Go back `n` calendar days; `none` on passing `datetime.date.min`. -/
def subDays : Date → Nat → Option Date
  | d, 0 => some d
  | d, n + 1 => (predDay d).bind (fun d2 => subDays d2 n)

/-- `date + timedelta(days=k)`: calendar day addition, `OverflowError`
(modelled as `none`) when the result leaves `[date.min, date.max]`. -/
def dateAddDays (d : Date) (k : Int) : Option Date :=
  if 0 ≤ k then addDays d k.toNat else subDays d (-k).toNat

/-- `datetime.timedelta(seconds=s).days`: the normalized day count is
`s // 86400`; `timedelta` construction raises `OverflowError` when the
normalized day count exceeds 999999999 in magnitude. -/
def timedeltaDays (s : Int) : Except PyErr Int :=
  let d := s / 86400
  if d < -999999999 ∨ 999999999 < d then .error .overflowError else .ok d

/-- `Precision` enum: none=1, year=2, month=3, day=4, ordered by value. -/
inductive Precision where
  | none
  | year
  | month
  | day
deriving DecidableEq

/-- The enum member values used by `Precision.__lt__`. -/
def Precision.value : Precision → Int
  | .none => 1
  | .year => 2
  | .month => 3
  | .day => 4

/-- The `Fuzidate` value: the four stored scalar fields.  The memoization
fields (`__validated`, `__high`, `__low`) of the Python class are caches of
pure derived values and are not part of the model. -/
structure Fuzidate where
  year : Int
  month : Int
  day : Int
  offset : Int
deriving DecidableEq

namespace Fuzidate

/-- `Fuzidate.precision`. -/
def precision (f : Fuzidate) : Precision :=
  if f.year = 0 then .none
  else if f.month = 0 then .year
  else if f.day = 0 then .month
  else .day

/-- `Fuzidate.number`: `(year * 10000) + (month * 100) + day`. -/
def number (f : Fuzidate) : Int :=
  f.year * 10000 + f.month * 100 + f.day

end Fuzidate

/-- Tail of `Fuzidate.__calc_high` (a `@staticmethod`, shared verbatim by
both module forms):
`return datetime.date(year, month, day)` in a `try` turning `ValueError`
into `InvalidFuzidateError('Offset out of range')`. -/
def calcHighTail (y m d : Int) : Except PyErr Date :=
  match dateNew y m d with
  | .ok dd => .ok dd
  | .error e =>
    if e.isValueError then .error (.invalidFuzidate "Offset out of range") else .error e

/-- `Fuzidate.__calc_high(precision, year, month, day, offset)`.
Note: the `day = calendar.monthrange(year, month)[1]` recomputation for
sub-day precision is *not* inside a `try`, so an `IllegalMonthError` there
propagates; in the month-precision offset branch the `monthrange` call *is*
guarded and its `ValueError` becomes `InvalidFuzidateError`; in the
day-precision branch the `timedelta` construction and the
`datetime.date(year, month, day)` call are outside the `try`, and only the
date addition's `OverflowError` is converted. -/
def calcHigh (p : Precision) (year0 month0 day0 offset : Int) : Except PyErr Date :=
  let month1 := if p.value < Precision.month.value then 12 else month0
  match (if p.value < Precision.day.value then monthrangeDays year0 month1 else .ok day0) with
  | .error e => .error e
  | .ok day1 =>
    if offset ≠ 0 then
      match p with
      | .year => calcHighTail (year0 + offset) month1 day1
      | .month =>
        let highMonths := month1 + offset
        let y2 := year0 + Int.tdiv (highMonths - 1) 12
        let m0 := highMonths % 12
        let m2 := if m0 = 0 then 12 else m0
        match monthrangeDays y2 m2 with
        | .error e =>
          if e.isValueError then .error (.invalidFuzidate "Offset out of range") else .error e
        | .ok d2 => calcHighTail y2 m2 d2
      | .day =>
        match timedeltaDays (offset * (60 * 60 * 24)) with
        | .error e => .error e
        | .ok tdays =>
          match dateNew year0 month1 day1 with
          | .error e => .error e
          | .ok d =>
            match dateAddDays d tdays with
            | Option.none => .error (.invalidFuzidate "Offset out of range")
            | Option.some high => .ok high
      | .none => calcHighTail year0 month1 day1
    else calcHighTail year0 month1 day1

namespace Fuzidate

/-- `Fuzidate.check_valid`, returning the computed `__high` on success.
`Fuzidate.min.year` is 1 and `Fuzidate.max.year` is 9999 (from
`datetime.date.min` / `datetime.date.max`). -/
def checkValid (f : Fuzidate) : Except PyErr Date :=
  if f.year = 0 ∧ f.month = 0 ∧ f.day = 0 then
    if f.offset ≠ 0 then .error (.invalidFuzidate "Unknown fuzidate may not have offset")
    else .ok dateMax
  else
    let p := f.precision
    if p.value < Precision.day.value ∧ f.day ≠ 0 then
      .error (.invalidFuzidate "Day must not be set")
    else if f.month < 0 then .error (.invalidFuzidate "Month must not be negative")
    else if p.value < Precision.month.value ∧ f.month ≠ 0 then
      .error (.invalidFuzidate "Month must not be set")
    else if f.year < 0 then .error (.invalidFuzidate "Year must not be negative")
    else
      match (if f.day ≠ 0 then monthrangeDays f.year f.month else .ok 0) with
      | .error e => .error e
      | .ok nd =>
        if f.day ≠ 0 ∧ nd < f.day then
          .error (.invalidFuzidate ("Invalid day: " ++ toString f.day))
        else if f.month ≠ 0 ∧ 12 < f.month then
          .error (.invalidFuzidate ("Invalid month: " ++ toString f.month))
        else if ¬ (1 ≤ f.year ∧ f.year ≤ 9999) then
          .error (.invalidFuzidate ("Invalid year: " ++ toString f.year))
        else if f.day < 0 then .error (.invalidFuzidate "Day must not be negative")
        else if f.offset < 0 then .error (.invalidFuzidate "Offset must not be negative")
        else calcHigh p f.year f.month f.day f.offset

/-- `Fuzidate.is_valid`: runs `check_valid` catching only
`InvalidFuzidateError`; any other exception propagates (hence the `Except`
result). -/
def isValid (f : Fuzidate) : Except PyErr Bool :=
  match f.checkValid with
  | .ok _ => .ok true
  | .error (.invalidFuzidate _) => .ok false
  | .error e => .error e

/-- `Fuzidate.high`: `check_valid`'s `__high`. -/
def high (f : Fuzidate) : Except PyErr Date :=
  f.checkValid

/-- `Fuzidate.low`: after `check_valid`,
`datetime.date(year or date.min.year, month or 1, day or 1)`. -/
def low (f : Fuzidate) : Except PyErr Date :=
  match f.checkValid with
  | .error e => .error e
  | .ok _ =>
    dateNew (if f.year = 0 then 1 else f.year)
      (if f.month = 0 then 1 else f.month)
      (if f.day = 0 then 1 else f.day)

/-- `Fuzidate.__eq__` between two fuzidates:
`(year, month, day) == (other.year, other.month, other.day)`. -/
def beq (a b : Fuzidate) : Bool :=
  (a.year, a.month, a.day) = (b.year, b.month, b.day)

/-- `Fuzidate.__lt__` between two fuzidates: lexicographic comparison of
the `(year, month, day)` tuples. -/
def lt (a b : Fuzidate) : Prop :=
  a.year < b.year ∨
    (a.year = b.year ∧ (a.month < b.month ∨ (a.month = b.month ∧ a.day < b.day)))

instance (a b : Fuzidate) : Decidable (lt a b) := by
  unfold lt; infer_instance

/-- The tuple passed to `hash` by `Fuzidate.__hash__`:
`(year, month, day, offset)` — all four fields. -/
def hashKey (f : Fuzidate) : Int × Int × Int × Int :=
  (f.year, f.month, f.day, f.offset)

/-- `Fuzidate.unknown` = `from_int(0)`. -/
def unknown : Fuzidate := ⟨0, 0, 0, 0⟩

end Fuzidate

/-! ### Decimal rendering (Python `str`/`format` of `int`) -/

/-- The character for a decimal digit value. -/
def digitChar (d : Nat) : Char := Char.ofNat (48 + d)

/-- Decimal digits of `n`, least significant first, with explicit fuel
(`fuel ≥ n` suffices) so the kernel can evaluate it. -/
def natDigitsRevAux : Nat → Nat → List Nat
  | 0, _ => []
  | _ + 1, 0 => []
  | fuel + 1, n + 1 => ((n + 1) % 10) :: natDigitsRevAux fuel ((n + 1) / 10)

/-- Decimal digits of `n`, least significant first. -/
def natDigitsRev (n : Nat) : List Nat := natDigitsRevAux n n

/-- Decimal rendering of a natural number, as Python's `str`. -/
def natChars (n : Nat) : List Char :=
  if n = 0 then ['0'] else ((natDigitsRev n).reverse).map digitChar

/-- Python `str(i)` for an int. -/
def intChars (i : Int) : List Char :=
  if i < 0 then '-' :: natChars (-i).toNat else natChars i.toNat

/-- Python `'{:02d}'.format(i)`: zero-pad to width 2 (the sign counts
towards the width). -/
def pad02 (i : Int) : List Char :=
  if 0 ≤ i ∧ i < 10 then '0' :: natChars i.toNat else intChars i

namespace Fuzidate

/-- `Fuzidate.__str__`, producing the character list. -/
def strChars (f : Fuzidate) : List Char :=
  if f.year = 0 ∧ f.month = 0 ∧ f.day = 0 then
    if f.offset ≠ 0 then '0' :: '+' :: intChars f.offset else ['0']
  else
    let offStr := if f.offset ≠ 0 then '+' :: intChars f.offset else []
    if f.month = 0 ∧ f.day = 0 then intChars f.year ++ offStr
    else if f.day = 0 ∧ f.year ≠ 0 then
      intChars f.year ++ '-' :: pad02 f.month ++ offStr
    else intChars f.year ++ '-' :: pad02 f.month ++ '-' :: pad02 f.day ++ offStr

/-- `Fuzidate.__str__`. -/
def str (f : Fuzidate) : String := ⟨f.strChars⟩

end Fuzidate

/-! ### Parsing (`Fuzidate.parse`)

The regex is `^(\d+)(?:-(\d+)(?:-(\d+))?)?(\+\d+)?$`.  Because every
group boundary is a non-digit literal (`-`, `+`, end), greedy maximal-munch
digit runs are exactly what the regex matches, so the parser below is a
deterministic equivalent. -/

/-- Split off the maximal leading run of decimal digits. -/
def takeDigits : List Char → List Char × List Char
  | [] => ([], [])
  | c :: cs =>
    if c.isDigit then
      let p := takeDigits cs
      (c :: p.1, p.2)
    else ([], c :: cs)

/-- Numeric value of a digit string (Python `int` of a decimal literal). -/
def digitsToNat (ds : List Char) : Nat :=
  ds.foldl (fun a c => a * 10 + (c.toNat - 48)) 0

/-- Parse the optional trailing `(\\+\\d+)?$` part: `some 0` at end of input,
the offset value after a `+`, `none` when the remainder cannot match. -/
def parseOffsetEnd : List Char → Option Nat
  | [] => some 0
  | c :: r =>
    if c = '+' then
      let p := takeDigits r
      if p.1.isEmpty then none
      else if p.2.isEmpty then some (digitsToNat p.1) else none
    else none

/-- After the year and month groups, parse `(?:-(\\d+))?(\\+\\d+)?$`. -/
def parseAfterMonth (y m : Nat) (cs : List Char) : Option (Nat × Nat × Nat × Nat) :=
  if cs.headD ' ' = '-' then
    let pd := takeDigits cs.tail
    if pd.1.isEmpty then none
    else (parseOffsetEnd pd.2).map fun o => (y, m, digitsToNat pd.1, o)
  else (parseOffsetEnd cs).map fun o => (y, m, 0, o)

/-- The regex match of `Fuzidate.parse`: the four numeric groups
(`0` for an absent group), or `none` when the string does not match. -/
def parseGroups (cs : List Char) : Option (Nat × Nat × Nat × Nat) :=
  let py := takeDigits cs
  if py.1.isEmpty then none
  else if py.2.headD ' ' = '-' then
    let pm := takeDigits py.2.tail
    if pm.1.isEmpty then none
    else parseAfterMonth (digitsToNat py.1) (digitsToNat pm.1) pm.2
  else (parseOffsetEnd py.2).map fun o => (digitsToNat py.1, 0, 0, o)

/-- `Fuzidate.parse(s)` with the default `validate=True`: a failed regex
match raises `ValueError('Fuzidate parse error')`; otherwise the fuzidate
is constructed from the groups and validated. -/
def Fuzidate.parse (s : String) : Except PyErr Fuzidate :=
  match parseGroups s.data with
  | Option.none => .error (.valueError "Fuzidate parse error")
  | Option.some (y, m, d, o) =>
    let f : Fuzidate := ⟨(y : Int), (m : Int), (d : Int), (o : Int)⟩
    match f.checkValid with
    | .ok _ => .ok f
    | .error e => .error e

/-! ### The earlier single-module form (`src/fuzidate.py`)

It stores the integer encoding plus the offset, derives the components,
and is the form that defines `Fuzidate.using`.  Its `__calc_high` body is
textually identical to the package form's, so `calcHigh` is shared. -/

namespace Legacy

/-- The legacy `Fuzidate`: stores `__number` and `__offset`. -/
structure Fuzidate where
  number : Int
  offset : Int
deriving DecidableEq

namespace Fuzidate

/-- Legacy `year`: `math.floor(number / 10000)` (floor division). -/
def year (f : Fuzidate) : Int := f.number / 10000

/-- Legacy `month`: `math.floor(number / 100) % 100`. -/
def month (f : Fuzidate) : Int := (f.number / 100) % 100

/-- Legacy `day`: `number % 100`. -/
def day (f : Fuzidate) : Int := f.number % 100

/-- Legacy `precision`: same component tests as the package form. -/
def precision (f : Fuzidate) : Precision :=
  if f.year = 0 then .none
  else if f.month = 0 then .year
  else if f.day = 0 then .month
  else .day

/-- Legacy `check_valid` (no negativity checks on year/month/day),
returning `__high` on success. -/
def checkValid (f : Fuzidate) : Except PyErr Date :=
  if f.number = 0 then
    if f.offset ≠ 0 then .error (.invalidFuzidate "Unknown fuzidate may not have offset")
    else .ok dateMax
  else
    let p := f.precision
    if p.value < Precision.day.value ∧ f.day ≠ 0 then
      .error (.invalidFuzidate "Day must not be set")
    else if p.value < Precision.month.value ∧ f.month ≠ 0 then
      .error (.invalidFuzidate "Month must not be set")
    else
      match (if f.day ≠ 0 then monthrangeDays f.year f.month else .ok 0) with
      | .error e => .error e
      | .ok nd =>
        if f.day ≠ 0 ∧ nd < f.day then
          .error (.invalidFuzidate ("Invalid day: " ++ toString f.day))
        else if f.month ≠ 0 ∧ 12 < f.month then
          .error (.invalidFuzidate ("Invalid month: " ++ toString f.month))
        else if ¬ (1 ≤ f.year ∧ f.year ≤ 9999) then
          .error (.invalidFuzidate ("Invalid year: " ++ toString f.year))
        else if f.offset < 0 then .error (.invalidFuzidate "Offset must not be negative")
        else calcHigh p f.year f.month f.day f.offset

/-- Legacy `Fuzidate.unknown` = `Fuzidate(0)`. -/
def unknown : Fuzidate := ⟨0, 0⟩

/-- Legacy `compose`: rejects negative components with `ValueError`, then
packs `day + month * 100 + year * 10000`. -/
def compose (y m d offset : Int) : Except PyErr Fuzidate :=
  if y < 0 then .error (.valueError "Year may not be < 0")
  else if m < 0 then .error (.valueError "Month may not be < 0")
  else if d < 0 then .error (.valueError "Day may not be < 0")
  else .ok ⟨d + m * 100 + y * 10000, offset⟩

/-- Legacy `Fuzidate.using(precision)`: `NotImplementedError` when the
value carries an offset, otherwise validates and re-precisions
(`Fuzidate.min.year` is 1). -/
def «using» (f : Fuzidate) (p : Precision) : Except PyErr Fuzidate :=
  if f.offset ≠ 0 then .error .notImplementedError
  else
    match f.checkValid with
    | .error e => .error e
    | .ok _ =>
      match p with
      | .none => .ok unknown
      | .year => compose (if f.year = 0 then 1 else f.year) 0 0 0
      | .month =>
        compose (if f.year = 0 then 1 else f.year) (if f.month = 0 then 1 else f.month) 0 0
      | .day =>
        compose (if f.year = 0 then 1 else f.year) (if f.month = 0 then 1 else f.month)
          (if f.day = 0 then 1 else f.day) 0

end Fuzidate

end Legacy

/-! ### Proleptic Gregorian ordinal (chronological order of dates)

`toOrdinal` is the day number of a date counted from 0001-01-01 = 1, the
standard proleptic Gregorian ordinal (what Python's `date.toordinal`
computes).  A date chronologically precedes another iff its ordinal is
smaller; this is the reference notion of chronological order used by the
ordering theorems. -/

/-- Days in all years before year `y`. -/
def daysBeforeYear (y : Int) : Int :=
  365 * (y - 1) + (y - 1) / 4 - (y - 1) / 100 + (y - 1) / 400

/-- Cumulative day counts of a non-leap year before month `m` (clamped:
`m ≤ 1` gives 0, `m ≥ 13` gives the full 365). -/
def cumDaysList : List Int :=
  [0, 0, 31, 59, 90, 120, 151, 181, 212, 243, 273, 304, 334]

/-- Days of a non-leap year before month `m` (clamped at both ends). -/
def cumDays (m : Int) : Int :=
  if m ≤ 1 then 0 else if 13 ≤ m then 365 else cumDaysList.getD m.toNat 0

/-- Days in year `y` before month `m` (leap aware). -/
def daysBeforeMonth (y m : Int) : Int :=
  cumDays m + (if 2 < m ∧ isleap y then 1 else 0)

/-- Proleptic Gregorian ordinal of the date `(y, m, d)`. -/
def toOrdinal (y m d : Int) : Int :=
  daysBeforeYear y + daysBeforeMonth y m + d

/-- Ordinal of a `Date` value. -/
def Date.ordinal (d : Date) : Int := toOrdinal d.year d.month d.day

/-! ### Decimal round-trip machinery -/

/-- Value of a least-significant-first digit list. -/
def ofRev : List Nat → Nat
  | [] => 0
  | d :: ds => d + 10 * ofRev ds

/-- Value of a most-significant-first digit list. -/
def msdVal (l : List Nat) : Nat := l.foldl (fun a d => a * 10 + d) 0

/-! ### Helper lemmas -/

theorem mdaysTable_bounds (m : Int) : 0 ≤ mdaysTable m ∧ mdaysTable m ≤ 31 := by
  unfold mdaysTable
  rcases lt_or_le m.toNat 13 with h | h
  · interval_cases h2 : m.toNat <;> simp_all <;> decide
  · rw [List.getD_eq_default]
    · omega
    · simpa [mdays] using h

theorem daysInMonth_le_31 (y m : Int) : daysInMonth y m ≤ 31 := by
  have h := mdaysTable_bounds m
  have h2 : m = 2 → mdaysTable m = 28 := by intro h2; subst h2; decide
  unfold daysInMonth
  split <;> omega

theorem mdaysTable_pos_of_range {m : Int} (h1 : 1 ≤ m) (h2 : m ≤ 12) :
    1 ≤ mdaysTable m := by
  unfold mdaysTable
  have : m.toNat ≤ 12 := by omega
  interval_cases h4 : m.toNat <;> simp_all <;> first | decide | omega

theorem daysInMonth_pos_of_range (y : Int) {m : Int} (h1 : 1 ≤ m) (h2 : m ≤ 12) :
    1 ≤ daysInMonth y m := by
  have h3 := mdaysTable_pos_of_range h1 h2
  unfold daysInMonth
  split <;> omega

theorem monthrangeDays_ok_iff {y m nd : Int} :
    monthrangeDays y m = .ok nd ↔ (1 ≤ m ∧ m ≤ 12 ∧ nd = daysInMonth y m) := by
  unfold monthrangeDays
  split
  case isTrue h =>
    simp only [Except.ok.injEq]
    constructor
    · intro he
      exact ⟨h.1, h.2, he.symm⟩
    · intro ⟨_, _, hnd⟩
      exact hnd.symm
  case isFalse h =>
    simp only [reduceCtorEq, false_iff, not_and]
    intro ha hb _
    exact h ⟨ha, hb⟩

/-- Component bounds guaranteed by a successful `check_valid`. -/
theorem Fuzidate.checkValid_bounds {f : Fuzidate} {h : Date}
    (hv : f.checkValid = .ok h) :
    (f.year = 0 ∧ f.month = 0 ∧ f.day = 0 ∧ f.offset = 0) ∨
    (1 ≤ f.year ∧ f.year ≤ 9999 ∧ 0 ≤ f.month ∧ f.month ≤ 12 ∧
      0 ≤ f.day ∧ f.day ≤ 31 ∧ 0 ≤ f.offset ∧
      (f.day ≠ 0 → 1 ≤ f.month ∧ 1 ≤ f.day ∧ f.day ≤ daysInMonth f.year f.month)) := by
  simp only [Fuzidate.checkValid] at hv
  split at hv
  case isTrue hz =>
    split at hv
    case isTrue => exact Except.noConfusion hv
    case isFalse ho =>
      left
      exact ⟨hz.1, hz.2.1, hz.2.2, by omega⟩
  case isFalse hz =>
    right
    split at hv
    case isTrue => exact Except.noConfusion hv
    case isFalse h1 =>
    split at hv
    case isTrue => exact Except.noConfusion hv
    case isFalse h2 =>
    split at hv
    case isTrue => exact Except.noConfusion hv
    case isFalse h3 =>
    split at hv
    case isTrue => exact Except.noConfusion hv
    case isFalse h4 =>
    split at hv
    case h_1 e heq => exact Except.noConfusion hv
    case h_2 nd heq =>
    split at hv
    case isTrue => exact Except.noConfusion hv
    case isFalse h5 =>
    split at hv
    case isTrue => exact Except.noConfusion hv
    case isFalse h6 =>
    split at hv
    case isTrue => exact Except.noConfusion hv
    case isFalse h7 =>
    split at hv
    case isTrue => exact Except.noConfusion hv
    case isFalse h8 =>
    split at hv
    case isTrue => exact Except.noConfusion hv
    case isFalse h9 =>
    push_neg at h7
    rcases eq_or_ne f.day 0 with hd0 | hd0
    · refine ⟨h7.1, h7.2, by omega, ?_, by omega, by omega, by omega, fun hc => absurd hd0 hc⟩
      rcases eq_or_ne f.month 0 with hm0 | hm0
      · omega
      · omega
    · rw [if_pos hd0] at heq
      have hmr := monthrangeDays_ok_iff.mp heq
      have h31 := daysInMonth_le_31 f.year f.month
      refine ⟨h7.1, h7.2, by omega, by omega, by omega, by omega, by omega,
        fun _ => ⟨by omega, by omega, by omega⟩⟩

theorem dateNew_ok {y m d : Int} {dd : Date} (h : dateNew y m d = .ok dd) :
    dd = ⟨y, m, d⟩ ∧ 1 ≤ y ∧ y ≤ 9999 ∧ 1 ≤ m ∧ m ≤ 12 ∧ 1 ≤ d ∧ d ≤ daysInMonth y m := by
  unfold dateNew at h
  split at h
  · exact Except.noConfusion h
  split at h
  · exact Except.noConfusion h
  split at h
  · exact Except.noConfusion h
  next h1 h2 h3 =>
  push_neg at h1 h2 h3
  cases h
  exact ⟨rfl, by omega, by omega, by omega, by omega, by omega, by omega⟩

theorem calcHighTail_ok {y m d : Int} {dd : Date} (h : calcHighTail y m d = .ok dd) :
    dd = ⟨y, m, d⟩ := by
  unfold calcHighTail at h
  split at h
  case h_1 d2 heq =>
    cases h
    exact (dateNew_ok heq).1
  case h_2 e heq =>
    split at h <;> exact Except.noConfusion h

/-- Successful validation of a not-all-zero fuzidate means the final
`__calc_high` call succeeded with the same result. -/
theorem Fuzidate.checkValid_calcHigh {f : Fuzidate} {h : Date}
    (hv : f.checkValid = .ok h) (hnz : ¬ (f.year = 0 ∧ f.month = 0 ∧ f.day = 0)) :
    calcHigh f.precision f.year f.month f.day f.offset = .ok h := by
  simp only [Fuzidate.checkValid] at hv
  rw [if_neg hnz] at hv
  split at hv
  case isTrue => exact Except.noConfusion hv
  case isFalse h1 =>
  split at hv
  case isTrue => exact Except.noConfusion hv
  case isFalse h2 =>
  split at hv
  case isTrue => exact Except.noConfusion hv
  case isFalse h3 =>
  split at hv
  case isTrue => exact Except.noConfusion hv
  case isFalse h4 =>
  split at hv
  case h_1 e heq => exact Except.noConfusion hv
  case h_2 nd heq =>
  split at hv
  case isTrue => exact Except.noConfusion hv
  case isFalse h5 =>
  split at hv
  case isTrue => exact Except.noConfusion hv
  case isFalse h6 =>
  split at hv
  case isTrue => exact Except.noConfusion hv
  case isFalse h7 =>
  split at hv
  case isTrue => exact Except.noConfusion hv
  case isFalse h8 =>
  split at hv
  case isTrue => exact Except.noConfusion hv
  case isFalse h9 =>
  exact hv

theorem Fuzidate.precision_eq_month_iff {f : Fuzidate} :
    f.precision = .month ↔ (f.year ≠ 0 ∧ f.month ≠ 0 ∧ f.day = 0) := by
  unfold Fuzidate.precision
  split_ifs <;> simp_all

theorem Fuzidate.precision_eq_day_iff {f : Fuzidate} :
    f.precision = .day ↔ (f.year ≠ 0 ∧ f.month ≠ 0 ∧ f.day ≠ 0) := by
  unfold Fuzidate.precision
  split_ifs <;> simp_all

theorem monthrangeDays_eq_ok {m : Int} (y : Int) (h1 : 1 ≤ m) (h2 : m ≤ 12) :
    monthrangeDays y m = .ok (daysInMonth y m) := by
  unfold monthrangeDays
  rw [if_pos ⟨h1, h2⟩]

theorem calcHigh_month {year month offset : Int} {h : Date}
    (h1 : 1 ≤ month) (h2 : month ≤ 12)
    (hc : calcHigh .month year month 0 offset = .ok h) :
    h.year = year + (month + offset - 1).tdiv 12 ∧
    h.month = (if (month + offset) % 12 = 0 then 12 else (month + offset) % 12) ∧
    h.day = daysInMonth h.year h.month := by
  unfold calcHigh at hc
  simp only [Precision.value] at hc
  rw [if_neg (show ¬ ((3:Int) < 3) by norm_num)] at hc
  rw [if_pos (show (3:Int) < 4 by norm_num)] at hc
  rw [monthrangeDays_eq_ok year h1 h2] at hc
  dsimp only at hc
  rcases eq_or_ne offset 0 with ho | ho
  · rw [if_neg (show ¬ (offset ≠ 0) by omega)] at hc
    subst ho
    have hd := calcHighTail_ok hc
    subst hd
    refine ⟨?_, ?_, rfl⟩
    · show year = year + (month + 0 - 1).tdiv 12
      have ht : (month + 0 - 1).tdiv 12 = 0 := by
        rw [Int.tdiv_eq_ediv (by omega) (by omega)]
        omega
      omega
    · show month = (if (month + 0) % 12 = 0 then 12 else (month + 0) % 12)
      split <;> omega
  · rw [if_pos ho] at hc
    have hm0a : 0 ≤ (month + offset) % 12 := Int.emod_nonneg _ (by norm_num)
    have hm0b : (month + offset) % 12 < 12 := Int.emod_lt_of_pos _ (by norm_num)
    set m2 := (if (month + offset) % 12 = 0 then (12 : Int) else (month + offset) % 12) with hm2
    have hm2a : 1 ≤ m2 := by rw [hm2]; split <;> omega
    have hm2b : m2 ≤ 12 := by rw [hm2]; split <;> omega
    rw [monthrangeDays_eq_ok _ hm2a hm2b] at hc
    dsimp only at hc
    have hd := calcHighTail_ok hc
    subst hd
    exact ⟨rfl, rfl, rfl⟩

theorem calcHigh_day {year month day offset : Int} {h : Date}
    (ho : offset ≠ 0)
    (hc : calcHigh .day year month day offset = .ok h) :
    dateAddDays ⟨year, month, day⟩ offset = some h := by
  unfold calcHigh at hc
  simp only [Precision.value] at hc
  rw [if_neg (show ¬ ((4:Int) < 3) by norm_num)] at hc
  rw [if_neg (show ¬ ((4:Int) < 4) by norm_num)] at hc
  dsimp only at hc
  rw [if_pos ho] at hc
  split at hc
  case h_1 e heq => exact Except.noConfusion hc
  case h_2 tdays heq =>
    have htd : tdays = offset := by
      unfold timedeltaDays at heq
      simp only at heq
      split at heq
      · exact Except.noConfusion heq
      · simp only [Except.ok.injEq] at heq
        rw [(show (60 * 60 * 24 : Int) = 86400 by norm_num)] at heq
        rw [Int.mul_ediv_cancel offset (by norm_num : (86400:Int) ≠ 0)] at heq
        omega
    subst htd
    split at hc
    case h_1 e heq2 => exact Except.noConfusion hc
    case h_2 d heq2 =>
      have hd := (dateNew_ok heq2).1
      subst hd
      split at hc
      case h_1 heq3 => exact Except.noConfusion hc
      case h_2 hi heq3 =>
        cases hc
        exact heq3

/-! ### Claim theorems -/

/-- C1: the claim says `is_valid` always returns a boolean and never
propagates an exception, including for (year=1914, month=13, day=5).  It is
false on the code: there the day check calls
`calendar.monthrange(1914, 13)`, which raises `IllegalMonthError`; that is
not an `InvalidFuzidateError`, so `is_valid`'s handler does not catch it
and the exception propagates out of `is_valid`. -/
theorem C1_is_valid_propagates_IllegalMonthError :
    Fuzidate.isValid ⟨1914, 13, 5, 0⟩ = .error .illegalMonth ∧
    Fuzidate.checkValid ⟨1914, 13, 5, 0⟩ = .error .illegalMonth := by
  constructor <;> decide

/-- C4: equality of two fuzidates compares exactly the `(year, month, day)`
triple, with `offset` excluded, while the tuple fed to `hash` by
`__hash__` is the full `(year, month, day, offset)`; consequently the two
values `1914-07-28` and `1914-07-28+1`, differing only in offset, compare
equal yet have different hash inputs. -/
theorem C4_eq_excludes_offset_hash_includes_it :
    (∀ a b : Fuzidate, Fuzidate.beq a b = true ↔
      (a.year = b.year ∧ a.month = b.month ∧ a.day = b.day)) ∧
    (∀ a b : Fuzidate, Fuzidate.hashKey a = Fuzidate.hashKey b ↔
      (a.year = b.year ∧ a.month = b.month ∧ a.day = b.day ∧ a.offset = b.offset)) ∧
    (Fuzidate.beq ⟨1914, 7, 28, 0⟩ ⟨1914, 7, 28, 1⟩ = true ∧
      Fuzidate.hashKey ⟨1914, 7, 28, 0⟩ ≠ Fuzidate.hashKey ⟨1914, 7, 28, 1⟩) := by
  refine ⟨fun a b => ?_, fun a b => ?_, by decide, by decide⟩
  · simp [Fuzidate.beq, Prod.ext_iff]
  · simp [Fuzidate.hashKey, Prod.ext_iff]

/-- C7: the claim says every offset-induced escape from the representable
date range is reported as the `InvalidFuzidateError('Offset out of range')`
validation failure and never as a generic arithmetic error.  The code does
so for moderate offsets (first two conjuncts: max-date day precision with
offset 1, and max-year year precision with offset 1), but at day precision
an offset of 10^9 days overflows the `datetime.timedelta` *construction*,
which sits outside the `try` block, so a raw `OverflowError` escapes
(third conjunct): the claim is false on the code. -/
theorem C7_offset_overflow_reporting :
    Fuzidate.checkValid ⟨9999, 12, 31, 1⟩ = .error (.invalidFuzidate "Offset out of range") ∧
    Fuzidate.checkValid ⟨9999, 0, 0, 1⟩ = .error (.invalidFuzidate "Offset out of range") ∧
    Fuzidate.checkValid ⟨1914, 7, 28, 1000000000⟩ = .error .overflowError := by
  refine ⟨by decide, by decide, by decide⟩

/-- C8: the all-zero fuzidate is valid exactly when its offset is zero,
failing with "Unknown fuzidate may not have offset" otherwise, and the
valid unknown value has `low` = `datetime.date.min` (0001-01-01) and
`high` = `datetime.date.max` (9999-12-31). -/
theorem C8_unknown_validity_and_bounds :
    (∀ o : Int, Fuzidate.checkValid ⟨0, 0, 0, o⟩ =
      (if o = 0 then .ok dateMax
       else .error (.invalidFuzidate "Unknown fuzidate may not have offset"))) ∧
    (∀ o : Int, Fuzidate.isValid ⟨0, 0, 0, o⟩ = .ok (decide (o = 0))) ∧
    Fuzidate.unknown.offset = 0 ∧
    Fuzidate.low Fuzidate.unknown = .ok dateMin ∧
    Fuzidate.high Fuzidate.unknown = .ok dateMax := by
  have hcv : ∀ o : Int, Fuzidate.checkValid ⟨0, 0, 0, o⟩ =
      (if o = 0 then .ok dateMax
       else .error (.invalidFuzidate "Unknown fuzidate may not have offset")) := by
    intro o
    rcases eq_or_ne o 0 with h | h <;> simp [Fuzidate.checkValid, h]
  refine ⟨hcv, fun o => ?_, rfl, by decide, by decide⟩
  rw [Fuzidate.isValid, hcv o]
  rcases eq_or_ne o 0 with h | h <;> simp [h]

/-- C10: `precision` is decided top-down by the coarsest unset component
(`none` when year = 0, `year` when only month = 0, `month` when only
day = 0, else `day`), regardless of validity; in particular
(year=0, month=0, day=1) has precision `none` although its day is set, and
its validation therefore fails with "Day must not be set". -/
theorem C10_precision_top_down :
    (∀ f : Fuzidate, f.precision =
      (if f.year = 0 then .none
       else if f.month = 0 then .year
       else if f.day = 0 then .month
       else .day)) ∧
    Fuzidate.precision ⟨0, 0, 1, 0⟩ = .none ∧
    Fuzidate.checkValid ⟨0, 0, 1, 0⟩ = .error (.invalidFuzidate "Day must not be set") := by
  refine ⟨fun f => rfl, by decide, by decide⟩

/-- C5: for a valid month-precision fuzidate, `high` is the last day of the
month reached by adding `offset` months to `(year, month)` with year carry
`(month + offset - 1) // 12` and month remainder `(month + offset) % 12`
normalized from 0 to 12, the day being the (leap-aware) last day of that
month; and the spec's concrete instances:
`compose(1914, 7, offset=18).high == date(1916, 1, 31)`,
`compose(1916, 2).high.day == 29`, `compose(1914, 2).high.day == 28`. -/
theorem C5_month_precision_high :
    (∀ (f : Fuzidate) (h : Date), f.checkValid = .ok h → f.precision = .month →
      h.year = f.year + (f.month + f.offset - 1).tdiv 12 ∧
      h.month = (if (f.month + f.offset) % 12 = 0 then 12 else (f.month + f.offset) % 12) ∧
      h.day = daysInMonth h.year h.month) ∧
    Fuzidate.high ⟨1914, 7, 0, 18⟩ = .ok ⟨1916, 1, 31⟩ ∧
    (Fuzidate.high ⟨1916, 2, 0, 0⟩).map Date.day = .ok 29 ∧
    (Fuzidate.high ⟨1914, 2, 0, 0⟩).map Date.day = .ok 28 := by
  refine ⟨?_, by decide, by decide, by decide⟩
  intro f h hv hp
  have hb := Fuzidate.checkValid_bounds hv
  have hm := Fuzidate.precision_eq_month_iff.mp hp
  have hnz : ¬ (f.year = 0 ∧ f.month = 0 ∧ f.day = 0) := fun hz => hm.1 hz.1
  have hc := Fuzidate.checkValid_calcHigh hv hnz
  rw [hp, hm.2.2] at hc
  rcases hb with ⟨hz, _⟩ | ⟨hy1, hy2, hm0, hm12, _⟩
  · exact absurd hz hm.1
  · exact calcHigh_month (by omega) hm12 hc

/-- Witness for C5: its general part applied to `compose(1914, 7, offset=18)`
with high `date(1916, 1, 31)`. -/
theorem C5_month_precision_high_witness :
    Fuzidate.checkValid ⟨1914, 7, 0, 18⟩ = .ok ⟨1916, 1, 31⟩ ∧
    Fuzidate.precision ⟨1914, 7, 0, 18⟩ = .month ∧
    ((1916 : Int) = 1914 + ((7 : Int) + 18 - 1).tdiv 12 ∧
      (1 : Int) = (if ((7 : Int) + 18) % 12 = 0 then 12 else ((7 : Int) + 18) % 12) ∧
      (31 : Int) = daysInMonth 1916 1) :=
  ⟨by decide, by decide,
    C5_month_precision_high.1 ⟨1914, 7, 0, 18⟩ ⟨1916, 1, 31⟩ (by decide) (by decide)⟩

/-- C6: for a valid day-precision fuzidate with nonzero offset, `high` is
the stored exact date advanced by `offset` calendar days (day-by-day
successor stepping across month/year/leap boundaries); and the spec's
concrete instance `compose(1914, 7, 28, offset=25).high == date(1914, 8, 22)`. -/
theorem C6_day_precision_high :
    (∀ (f : Fuzidate) (h : Date), f.checkValid = .ok h → f.precision = .day →
      f.offset ≠ 0 → dateAddDays ⟨f.year, f.month, f.day⟩ f.offset = some h) ∧
    Fuzidate.high ⟨1914, 7, 28, 25⟩ = .ok ⟨1914, 8, 22⟩ := by
  refine ⟨?_, by decide⟩
  intro f h hv hp ho
  have hd := Fuzidate.precision_eq_day_iff.mp hp
  have hnz : ¬ (f.year = 0 ∧ f.month = 0 ∧ f.day = 0) := fun hz => hd.1 hz.1
  have hc := Fuzidate.checkValid_calcHigh hv hnz
  rw [hp] at hc
  exact calcHigh_day ho hc

/-- Witness for C6: its general part applied to
`compose(1914, 7, 28, offset=25)` with high `date(1914, 8, 22)`. -/
theorem C6_day_precision_high_witness :
    Fuzidate.checkValid ⟨1914, 7, 28, 25⟩ = .ok ⟨1914, 8, 22⟩ ∧
    Fuzidate.precision ⟨1914, 7, 28, 25⟩ = .day ∧ (25 : Int) ≠ 0 ∧
    dateAddDays ⟨1914, 7, 28⟩ 25 = some ⟨1914, 8, 22⟩ :=
  ⟨by decide, by decide, by decide,
    C6_day_precision_high.1 ⟨1914, 7, 28, 25⟩ ⟨1914, 8, 22⟩ (by decide) (by decide) (by decide)⟩

/-- C9: in the module form that defines it, `using(Precision.none)` on any
valid offset-free fuzidate returns the canonical unknown value, whatever
the source's precision; and calling `using` on an offset-bearing value
raises `NotImplementedError`. -/
theorem C9_using_none_and_offset_unsupported :
    (∀ (v : Legacy.Fuzidate) (h : Date), v.checkValid = .ok h → v.offset = 0 →
      Legacy.Fuzidate.«using» v .none = .ok Legacy.Fuzidate.unknown) ∧
    (∀ (v : Legacy.Fuzidate) (p : Precision), v.offset ≠ 0 →
      Legacy.Fuzidate.«using» v p = .error .notImplementedError) := by
  constructor
  · intro v h hv ho
    unfold Legacy.Fuzidate.«using»
    rw [if_neg (show ¬ (v.offset ≠ 0) by omega)]
    rw [hv]
  · intro v p ho
    unfold Legacy.Fuzidate.«using»
    rw [if_pos ho]

/-- Witness for C9: applied to the valid day-precision `Fuzidate(19140728)`
and the offset-carrying `Fuzidate(19140728, 1)`. -/
theorem C9_using_witness :
    Legacy.Fuzidate.checkValid ⟨19140728, 0⟩ = .ok ⟨1914, 7, 28⟩ ∧
    Legacy.Fuzidate.«using» ⟨19140728, 0⟩ .none = .ok Legacy.Fuzidate.unknown ∧
    ((1 : Int) ≠ 0 ∧
      Legacy.Fuzidate.«using» ⟨19140728, 1⟩ .day = .error .notImplementedError) :=
  ⟨by decide,
    (C9_using_none_and_offset_unsupported.1 ⟨19140728, 0⟩ ⟨1914, 7, 28⟩ (by decide) (by decide)),
    ⟨by decide, C9_using_none_and_offset_unsupported.2 ⟨19140728, 1⟩ .day (by decide)⟩⟩

theorem isleap_iff {y : Int} :
    isleap y = true ↔ (y % 4 = 0 ∧ (y % 100 ≠ 0 ∨ y % 400 = 0)) := by
  unfold isleap
  simp

theorem daysBeforeYear_step (y : Int) :
    daysBeforeYear (y + 1) = daysBeforeYear y + 365 + (if isleap y then 1 else 0) := by
  unfold daysBeforeYear
  split
  case isTrue hl =>
    have h2 := isleap_iff.mp hl
    omega
  case isFalse hl =>
    have h2 : ¬ (y % 4 = 0 ∧ (y % 100 ≠ 0 ∨ y % 400 = 0)) := fun hp => hl (isleap_iff.mpr hp)
    omega

theorem daysBeforeYear_mono {y y' : Int} (h : y ≤ y') :
    daysBeforeYear y ≤ daysBeforeYear y' := by
  refine Int.le_induction (P := fun z => daysBeforeYear y ≤ daysBeforeYear z)
    (le_refl _) ?_ y' h
  intro n hn ih
  have hs := daysBeforeYear_step n
  split at hs <;> omega

theorem daysBeforeMonth_one (y : Int) : daysBeforeMonth y 1 = 0 := by
  unfold daysBeforeMonth cumDays
  norm_num

theorem daysBeforeMonth_thirteen (y : Int) :
    daysBeforeMonth y 13 = 365 + (if isleap y then 1 else 0) := by
  unfold daysBeforeMonth cumDays
  norm_num

theorem daysBeforeMonth_step (y : Int) {m : Int} (h1 : 1 ≤ m) (h2 : m ≤ 12) :
    daysBeforeMonth y (m + 1) = daysBeforeMonth y m + daysInMonth y m := by
  rcases Bool.dichotomy (isleap y) with hl | hl <;>
    (interval_cases m <;>
      simp [daysBeforeMonth, cumDays, cumDaysList, daysInMonth, mdaysTable, mdays, hl])

theorem daysBeforeMonth_mono (y : Int) {m m' : Int} (h1 : 1 ≤ m) (h2 : m ≤ m')
    (h3 : m' ≤ 13) : daysBeforeMonth y m ≤ daysBeforeMonth y m' := by
  refine Int.le_induction
    (P := fun z => z ≤ 13 → daysBeforeMonth y m ≤ daysBeforeMonth y z)
    (fun _ => le_refl _) ?_ m' h2 h3
  intro n hn ih h13
  have hs := daysBeforeMonth_step y (show (1:Int) ≤ n by omega) (show n ≤ 12 by omega)
  have hd := mdaysTable_bounds n
  have ihh := ih (by omega)
  unfold daysInMonth at hs
  split at hs <;> omega

theorem daysBeforeMonth_nonneg (y : Int) {m : Int} (h1 : 1 ≤ m) (h2 : m ≤ 13) :
    0 ≤ daysBeforeMonth y m := by
  have h := daysBeforeMonth_mono y (le_refl (1:Int)) h1 h2
  rwa [daysBeforeMonth_one] at h

/-- Lexicographically earlier valid dates have smaller ordinals. -/
theorem toOrdinal_lt_of_lex {y1 m1 d1 y2 m2 d2 : Int}
    (hm1a : 1 ≤ m1) (hm1b : m1 ≤ 12) (_hd1a : 1 ≤ d1) (hd1b : d1 ≤ daysInMonth y1 m1)
    (hm2a : 1 ≤ m2) (hm2b : m2 ≤ 12) (hd2a : 1 ≤ d2)
    (hlex : y1 < y2 ∨ (y1 = y2 ∧ (m1 < m2 ∨ (m1 = m2 ∧ d1 < d2)))) :
    toOrdinal y1 m1 d1 < toOrdinal y2 m2 d2 := by
  unfold toOrdinal
  rcases hlex with hy | ⟨rfl, hm | ⟨rfl, hd⟩⟩
  · have hstep := daysBeforeMonth_step y1 hm1a hm1b
    have hmono := daysBeforeMonth_mono y1 (show (1:Int) ≤ m1 + 1 by omega)
      (show m1 + 1 ≤ 13 by omega) (le_refl 13)
    have h13 := daysBeforeMonth_thirteen y1
    have hys := daysBeforeYear_step y1
    have hym := daysBeforeYear_mono (show y1 + 1 ≤ y2 by omega)
    have hnn := daysBeforeMonth_nonneg y2 hm2a (by omega)
    omega
  · have hstep := daysBeforeMonth_step y1 hm1a hm1b
    have hmono := daysBeforeMonth_mono y1 (show (1:Int) ≤ m1 + 1 by omega)
      (show m1 + 1 ≤ m2 by omega) (by omega)
    omega
  · omega

/-- For dates within the valid component ranges, ordinal (chronological)
order and lexicographic component order coincide. -/
theorem toOrdinal_lt_iff {y1 m1 d1 y2 m2 d2 : Int}
    (hm1a : 1 ≤ m1) (hm1b : m1 ≤ 12) (hd1a : 1 ≤ d1) (hd1b : d1 ≤ daysInMonth y1 m1)
    (hm2a : 1 ≤ m2) (hm2b : m2 ≤ 12) (hd2a : 1 ≤ d2) (hd2b : d2 ≤ daysInMonth y2 m2) :
    toOrdinal y1 m1 d1 < toOrdinal y2 m2 d2 ↔
      (y1 < y2 ∨ (y1 = y2 ∧ (m1 < m2 ∨ (m1 = m2 ∧ d1 < d2)))) := by
  constructor
  · intro h
    by_contra hn
    have hge : toOrdinal y2 m2 d2 ≤ toOrdinal y1 m1 d1 := by
      rcases lt_trichotomy y1 y2 with hy | hy | hy
      · exact absurd (Or.inl hy) hn
      · rcases lt_trichotomy m1 m2 with hm | hm | hm
        · exact absurd (Or.inr ⟨hy, Or.inl hm⟩) hn
        · rcases le_or_lt d2 d1 with hd | hd
          · subst hy
            subst hm
            unfold toOrdinal
            omega
          · exact absurd (Or.inr ⟨hy, Or.inr ⟨hm, hd⟩⟩) hn
        · have hlt := toOrdinal_lt_of_lex hm2a hm2b hd2a hd2b hm1a hm1b hd1a
            (Or.inr ⟨hy.symm, Or.inl hm⟩)
          omega
      · have hlt := toOrdinal_lt_of_lex hm2a hm2b hd2a hd2b hm1a hm1b hd1a (Or.inl hy)
        omega
    omega
  · exact toOrdinal_lt_of_lex hm1a hm1b hd1a hd1b hm2a hm2b hd2a

theorem Fuzidate.isValid_ok_true {f : Fuzidate} (h : f.isValid = .ok true) :
    ∃ d, f.checkValid = .ok d := by
  unfold Fuzidate.isValid at h
  split at h
  case h_1 d heq => exact ⟨d, heq⟩
  case h_2 msg heq => simp at h
  case h_3 e heq hne => exact Except.noConfusion h

/-- C3: for valid fuzidates, lexicographic `(year, month, day)` comparison
(the final `__lt__`) agrees with comparison of the integer encodings
`number`, and for two values of day precision it is exactly chronological
order of the denoted calendar dates (smaller proleptic Gregorian ordinal). -/
theorem C3_lt_number_and_chronological :
    ∀ (a b : Fuzidate), a.isValid = .ok true → b.isValid = .ok true →
      ((Fuzidate.lt a b ↔ a.number < b.number) ∧
        (a.precision = .day → b.precision = .day →
          (Fuzidate.lt a b ↔
            toOrdinal a.year a.month a.day < toOrdinal b.year b.month b.day))) := by
  intro a b ha hb
  obtain ⟨da, hda⟩ := Fuzidate.isValid_ok_true ha
  obtain ⟨db, hdb⟩ := Fuzidate.isValid_ok_true hb
  have ba := Fuzidate.checkValid_bounds hda
  have bb := Fuzidate.checkValid_bounds hdb
  constructor
  · unfold Fuzidate.lt Fuzidate.number
    omega
  · intro hpa hpb
    have la := Fuzidate.precision_eq_day_iff.mp hpa
    have lb := Fuzidate.precision_eq_day_iff.mp hpb
    rcases ba with ⟨z1, _, _, _⟩ | ⟨_, _, _, hm12a, _, _, _, hdma⟩
    · exact absurd z1 la.1
    rcases bb with ⟨z1, _, _, _⟩ | ⟨_, _, _, hm12b, _, _, _, hdmb⟩
    · exact absurd z1 lb.1
    have bda := hdma la.2.2
    have bdb := hdmb lb.2.2
    unfold Fuzidate.lt
    exact (toOrdinal_lt_iff bda.1 hm12a bda.2.1 bda.2.2 bdb.1 hm12b bdb.2.1 bdb.2.2).symm

/-- Witness for C3: July 28, 1914 against November 11, 1918. -/
theorem C3_lt_number_witness :
    Fuzidate.isValid ⟨1914, 7, 28, 0⟩ = .ok true ∧
    Fuzidate.isValid ⟨1918, 11, 11, 0⟩ = .ok true ∧
    ((Fuzidate.lt ⟨1914, 7, 28, 0⟩ ⟨1918, 11, 11, 0⟩ ↔
        Fuzidate.number ⟨1914, 7, 28, 0⟩ < Fuzidate.number ⟨1918, 11, 11, 0⟩) ∧
      (Fuzidate.precision ⟨1914, 7, 28, 0⟩ = .day →
        Fuzidate.precision ⟨1918, 11, 11, 0⟩ = .day →
        (Fuzidate.lt ⟨1914, 7, 28, 0⟩ ⟨1918, 11, 11, 0⟩ ↔
          toOrdinal 1914 7 28 < toOrdinal 1918 11 11))) :=
  ⟨by decide, by decide,
    C3_lt_number_and_chronological ⟨1914, 7, 28, 0⟩ ⟨1918, 11, 11, 0⟩ (by decide) (by decide)⟩

theorem digitChar_isDigit {d : Nat} (h : d < 10) : (digitChar d).isDigit = true := by
  interval_cases d <;> decide

theorem digitChar_toNat {d : Nat} (h : d < 10) : (digitChar d).toNat = 48 + d := by
  interval_cases d <;> decide

theorem natDigitsRevAux_lt_ten :
    ∀ (fuel n : Nat), ∀ d ∈ natDigitsRevAux fuel n, d < 10 := by
  intro fuel
  induction fuel with
  | zero => intro n d hd; simp [natDigitsRevAux] at hd
  | succ fuel ih =>
    intro n d hd
    match n with
    | 0 => simp [natDigitsRevAux] at hd
    | n + 1 =>
      rw [natDigitsRevAux] at hd
      rcases List.mem_cons.mp hd with h | h
      · omega
      · exact ih _ _ h

theorem natDigitsRevAux_val :
    ∀ (fuel n : Nat), n ≤ fuel → ofRev (natDigitsRevAux fuel n) = n := by
  intro fuel
  induction fuel with
  | zero =>
    intro n hn
    have : n = 0 := by omega
    subst this
    rfl
  | succ fuel ih =>
    intro n hn
    match n with
    | 0 => rfl
    | n + 1 =>
      rw [natDigitsRevAux, ofRev]
      have hlt : (n + 1) / 10 < n + 1 := Nat.div_lt_self (by omega) (by omega)
      rw [ih ((n + 1) / 10) (by omega)]
      omega

theorem natDigitsRev_cons (n : Nat) (hn : n ≠ 0) :
    natDigitsRev n = n % 10 :: natDigitsRevAux (n - 1) (n / 10) := by
  unfold natDigitsRev
  match n, hn with
  | n + 1, _ => rw [natDigitsRevAux]; simp

theorem natChars_ne_nil (n : Nat) : natChars n ≠ [] := by
  unfold natChars
  split
  · simp
  · next hn =>
    rw [natDigitsRev_cons n hn]
    simp

theorem natChars_all_digit (n : Nat) : ∀ c ∈ natChars n, c.isDigit = true := by
  unfold natChars
  split
  · intro c hc
    simp at hc
    subst hc
    decide
  · intro c hc
    simp only [List.mem_map, List.mem_reverse] at hc
    obtain ⟨d, hd, rfl⟩ := hc
    exact digitChar_isDigit (natDigitsRevAux_lt_ten _ _ _ hd)

theorem digitsToNat_map_digitChar (l : List Nat) (h : ∀ d ∈ l, d < 10) :
    digitsToNat (l.map digitChar) = msdVal l := by
  unfold digitsToNat msdVal
  have key : ∀ (l : List Nat), (∀ d ∈ l, d < 10) → ∀ a : Nat,
      List.foldl (fun a c => a * 10 + (c.toNat - 48)) a (l.map digitChar) =
        List.foldl (fun a d => a * 10 + d) a l := by
    intro l
    induction l with
    | nil => intro _ a; rfl
    | cons d ds ih =>
      intro hd a
      simp only [List.map_cons, List.foldl_cons]
      rw [digitChar_toNat (hd d (List.mem_cons_self d ds))]
      have : 48 + d - 48 = d := by omega
      rw [this]
      exact ih (fun x hx => hd x (List.mem_cons_of_mem d hx)) _
  exact key l h 0

theorem msdVal_reverse (l : List Nat) : msdVal l.reverse = ofRev l := by
  induction l with
  | nil => rfl
  | cons d ds ih =>
    unfold msdVal at ih ⊢
    rw [ofRev, List.reverse_cons, List.foldl_append]
    simp only [List.foldl_cons, List.foldl_nil]
    omega

theorem digitsToNat_natChars (n : Nat) : digitsToNat (natChars n) = n := by
  unfold natChars
  split
  · next hn => subst hn; decide
  · next hn =>
    unfold natDigitsRev
    rw [digitsToNat_map_digitChar _ (fun d hd => natDigitsRevAux_lt_ten _ _ d (List.mem_reverse.mp hd))]
    rw [msdVal_reverse]
    exact natDigitsRevAux_val n n (le_refl n)

theorem takeDigits_all (xs : List Char) (h : ∀ c ∈ xs, c.isDigit = true) :
    takeDigits xs = (xs, []) := by
  induction xs with
  | nil => rfl
  | cons c cs ih =>
    unfold takeDigits
    rw [if_pos (h c (List.mem_cons_self c cs))]
    rw [ih (fun x hx => h x (List.mem_cons_of_mem c hx))]

theorem takeDigits_append (xs rest : List Char) (h : ∀ c ∈ xs, c.isDigit = true)
    (hr : (rest.headD '-').isDigit = false) :
    takeDigits (xs ++ rest) = (xs, rest) := by
  induction xs with
  | nil =>
    simp only [List.nil_append]
    match rest with
    | [] => rfl
    | c :: cs =>
      unfold takeDigits
      simp only [List.headD_cons] at hr
      rw [if_neg (by simp [hr])]
  | cons c cs ih =>
    rw [List.cons_append]
    unfold takeDigits
    rw [if_pos (h c (List.mem_cons_self c cs))]
    rw [ih (fun x hx => h x (List.mem_cons_of_mem c hx))]

theorem digitsToNat_cons_zero (l : List Char) :
    digitsToNat ('0' :: l) = digitsToNat l := by
  unfold digitsToNat
  simp only [List.foldl_cons]
  have h48 : '0'.toNat = 48 := rfl
  rw [h48]

theorem intChars_of_nonneg {o : Int} (h : 0 ≤ o) : intChars o = natChars o.toNat := by
  unfold intChars
  rw [if_neg (by omega)]

theorem offChars_headD_not_digit (o : Int) :
    (((if o ≠ 0 then '+' :: intChars o else []).headD '-').isDigit) = false := by
  split
  · simp only [List.headD_cons]
    decide
  · simp only [List.headD_nil]
    decide

theorem offChars_headD_ne_dash (o : Int) :
    ¬ ((if o ≠ 0 then '+' :: intChars o else []).headD ' ' = '-') := by
  split
  · simp only [List.headD_cons]
    decide
  · simp only [List.headD_nil]
    decide

theorem parseOffsetEnd_offChars {o : Int} (ho : 0 ≤ o) :
    parseOffsetEnd (if o ≠ 0 then '+' :: intChars o else []) = some o.toNat := by
  rcases eq_or_ne o 0 with h0 | h0
  · subst h0
    rw [if_neg (by omega)]
    rfl
  · rw [if_pos h0, intChars_of_nonneg ho]
    simp only [parseOffsetEnd]
    rw [if_pos trivial]
    rw [takeDigits_all _ (natChars_all_digit _)]
    dsimp only
    rw [if_neg (by simp [List.isEmpty_eq_true, natChars_ne_nil])]
    rw [digitsToNat_natChars]
    rfl

theorem pad02_of_nonneg {i : Int} (h : 0 ≤ i) :
    pad02 i = (if i < 10 then '0' :: natChars i.toNat else natChars i.toNat) := by
  unfold pad02
  rcases lt_or_le i 10 with h10 | h10
  · rw [if_pos ⟨h, h10⟩, if_pos h10]
  · rw [if_neg (by omega), if_neg (by omega), intChars_of_nonneg h]

theorem pad02_all_digit {i : Int} (h : 0 ≤ i) : ∀ c ∈ pad02 i, c.isDigit = true := by
  rw [pad02_of_nonneg h]
  split
  · intro c hc
    rcases List.mem_cons.mp hc with rfl | hc
    · decide
    · exact natChars_all_digit _ c hc
  · exact natChars_all_digit _

theorem pad02_ne_nil {i : Int} (h : 0 ≤ i) : pad02 i ≠ [] := by
  rw [pad02_of_nonneg h]
  split
  · simp
  · exact natChars_ne_nil _

theorem digitsToNat_pad02 {i : Int} (h : 0 ≤ i) : digitsToNat (pad02 i) = i.toNat := by
  rw [pad02_of_nonneg h]
  split
  · rw [digitsToNat_cons_zero, digitsToNat_natChars]
  · rw [digitsToNat_natChars]

theorem parseAfterMonth_off {y m : Nat} {o : Int} (ho : 0 ≤ o) :
    parseAfterMonth y m (if o ≠ 0 then '+' :: intChars o else []) =
      some (y, m, 0, o.toNat) := by
  unfold parseAfterMonth
  rw [if_neg (offChars_headD_ne_dash o)]
  rw [parseOffsetEnd_offChars ho]
  rfl

theorem parseAfterMonth_day {y m : Nat} {d o : Int} (hd : 0 ≤ d) (ho : 0 ≤ o) :
    parseAfterMonth y m ('-' :: (pad02 d ++ (if o ≠ 0 then '+' :: intChars o else []))) =
      some (y, m, d.toNat, o.toNat) := by
  unfold parseAfterMonth
  rw [if_pos (by simp only [List.headD_cons])]
  simp only [List.tail_cons]
  rw [takeDigits_append _ _ (pad02_all_digit hd) (offChars_headD_not_digit o)]
  dsimp only
  rw [if_neg (by simp [pad02_ne_nil hd])]
  rw [parseOffsetEnd_offChars ho]
  rw [digitsToNat_pad02 hd]
  rfl

theorem dash_headD_not_digit (xs : List Char) :
    ((('-' :: xs).headD '-').isDigit) = false := by
  simp only [List.headD_cons]
  decide

theorem parseGroups_year {y o : Int} (hy : 0 ≤ y) (ho : 0 ≤ o) :
    parseGroups (intChars y ++ (if o ≠ 0 then '+' :: intChars o else [])) =
      some (y.toNat, 0, 0, o.toNat) := by
  unfold parseGroups
  rw [intChars_of_nonneg hy]
  rw [takeDigits_append _ _ (natChars_all_digit _) (offChars_headD_not_digit o)]
  dsimp only
  rw [if_neg (by simp [List.isEmpty_eq_true, natChars_ne_nil])]
  rw [if_neg (offChars_headD_ne_dash o)]
  rw [parseOffsetEnd_offChars ho]
  rw [digitsToNat_natChars]
  rfl

theorem parseGroups_month {y m o : Int} (hy : 0 ≤ y) (hm : 0 ≤ m) (ho : 0 ≤ o) :
    parseGroups
        (intChars y ++ '-' :: (pad02 m ++ (if o ≠ 0 then '+' :: intChars o else []))) =
      some (y.toNat, m.toNat, 0, o.toNat) := by
  unfold parseGroups
  rw [intChars_of_nonneg hy]
  rw [takeDigits_append _ _ (natChars_all_digit _) (dash_headD_not_digit _)]
  dsimp only
  rw [if_neg (by simp [List.isEmpty_eq_true, natChars_ne_nil])]
  rw [if_pos (by simp only [List.headD_cons])]
  simp only [List.tail_cons]
  rw [takeDigits_append _ _ (pad02_all_digit hm) (offChars_headD_not_digit o)]
  dsimp only
  rw [if_neg (by simp [List.isEmpty_eq_true, pad02_ne_nil hm])]
  rw [digitsToNat_natChars, digitsToNat_pad02 hm]
  exact parseAfterMonth_off ho

theorem parseGroups_day {y m d o : Int} (hy : 0 ≤ y) (hm : 0 ≤ m) (hd : 0 ≤ d)
    (ho : 0 ≤ o) :
    parseGroups
        (intChars y ++ '-' ::
          (pad02 m ++ '-' :: (pad02 d ++ (if o ≠ 0 then '+' :: intChars o else [])))) =
      some (y.toNat, m.toNat, d.toNat, o.toNat) := by
  unfold parseGroups
  rw [intChars_of_nonneg hy]
  rw [takeDigits_append _ _ (natChars_all_digit _) (dash_headD_not_digit _)]
  dsimp only
  rw [if_neg (by simp [List.isEmpty_eq_true, natChars_ne_nil])]
  rw [if_pos (by simp only [List.headD_cons])]
  simp only [List.tail_cons]
  rw [takeDigits_append _ _ (pad02_all_digit hm) (dash_headD_not_digit _)]
  dsimp only
  rw [if_neg (by simp [List.isEmpty_eq_true, pad02_ne_nil hm])]
  rw [digitsToNat_natChars, digitsToNat_pad02 hm]
  exact parseAfterMonth_day hd ho

/-- C2: parsing the textual rendering of any valid fuzidate reconstructs a
fuzidate whose year, month, day and offset all equal the original's
(structure equality covers all four stored fields). -/
theorem C2_parse_str_roundtrip :
    ∀ f : Fuzidate, f.isValid = .ok true → Fuzidate.parse f.str = .ok f := by
  intro f hv
  obtain ⟨dd, hdd⟩ := Fuzidate.isValid_ok_true hv
  have hb := Fuzidate.checkValid_bounds hdd
  obtain ⟨Y, M, D, O⟩ := f
  dsimp only at hb
  rcases hb with ⟨h1, h2, h3, h4⟩ | ⟨hy1, hy2, hm0, hm12, hd0, hd31, ho0, hdayb⟩
  · subst h1
    subst h2
    subst h3
    subst h4
    decide
  · unfold Fuzidate.str Fuzidate.strChars
    dsimp only
    rw [if_neg (by omega)]
    by_cases hMD : M = 0 ∧ D = 0
    · rw [if_pos hMD]
      obtain ⟨rfl, rfl⟩ := hMD
      unfold Fuzidate.parse
      dsimp only
      rw [parseGroups_year (by omega) (by omega)]
      dsimp only
      simp only [Nat.cast_zero]
      rw [Int.toNat_of_nonneg (show (0:Int) ≤ Y by omega),
        Int.toNat_of_nonneg (show (0:Int) ≤ O by omega)]
      rw [hdd]
    · rw [if_neg hMD]
      by_cases hDY : D = 0 ∧ Y ≠ 0
      · rw [if_pos hDY]
        obtain ⟨rfl, -⟩ := hDY
        unfold Fuzidate.parse
        dsimp only
        simp only [List.append_assoc, List.cons_append]
        rw [parseGroups_month (by omega) (by omega) (by omega)]
        dsimp only
        simp only [Nat.cast_zero]
        rw [Int.toNat_of_nonneg (show (0:Int) ≤ Y by omega),
          Int.toNat_of_nonneg (show (0:Int) ≤ M by omega),
          Int.toNat_of_nonneg (show (0:Int) ≤ O by omega)]
        rw [hdd]
      · rw [if_neg hDY]
        unfold Fuzidate.parse
        dsimp only
        simp only [List.append_assoc, List.cons_append]
        rw [parseGroups_day (by omega) (by omega) (by omega) (by omega)]
        dsimp only
        rw [Int.toNat_of_nonneg (show (0:Int) ≤ Y by omega),
          Int.toNat_of_nonneg (show (0:Int) ≤ M by omega),
          Int.toNat_of_nonneg (show (0:Int) ≤ D by omega),
          Int.toNat_of_nonneg (show (0:Int) ≤ O by omega)]
        rw [hdd]

/-- Witness for C2: the round trip at `1914-07-28+25`. -/
theorem C2_parse_str_roundtrip_witness :
    Fuzidate.isValid ⟨1914, 7, 28, 25⟩ = .ok true ∧
    Fuzidate.parse (Fuzidate.str ⟨1914, 7, 28, 25⟩) = .ok ⟨1914, 7, 28, 25⟩ :=
  ⟨by decide, C2_parse_str_roundtrip ⟨1914, 7, 28, 25⟩ (by decide)⟩

end Fzd
